import Mathlib

/-!
Verification of the circuit breaker and keyed rate limiter of the
`htmx-learn` repository (Go), as a shallow embedding in Lean 4.

The circuit breaker comes from the `circuitbreaker` package
(`Execute`, `allowRequest`, `recordSuccess`, `recordFailure`).
The keyed rate limiter comes from `middleware/middleware.go`
(`RateLimitStore`, `GetLimiter`, `RateLimit`); the per-key token
bucket itself is `golang.org/x/time/rate.Limiter`, an external
library, and is modelled from the specification where needed.

Times and durations are modelled as integers (Go `time.Time` /
`time.Duration` are nanosecond counts); Go `int` counters that only
ever grow from zero are modelled as `Nat`.
-/

namespace CircuitBreaker

/-- The three breaker states (`StateClosed`, `StateOpen`, `StateHalfOpen`). -/
inductive State where
  | closed
  | opened
  | halfOpen
deriving DecidableEq, Repr

/-- `Config` of the Go `circuitbreaker` package: `MaxFailures`,
`ResetTimeout`, `FailureTimeout` (the per-call timeout), `MaxRequests`
(maximum requests allowed in half-open state). -/
structure Config where
  maxFailures : Nat
  resetTimeout : Int
  failureTimeout : Int
  maxRequests : Nat
deriving DecidableEq, Repr

/-- The mutable fields of the Go `CircuitBreaker` struct together with its
immutable configuration. `lastFailTime` is a nanosecond timestamp. -/
structure CB where
  config : Config
  state : State
  failures : Nat
  requests : Nat
  lastFailTime : Int
deriving DecidableEq, Repr

/-- `New(config)`: fresh breaker, state `Closed`, zero counters
(Go zero values for `failures`, `requests`, `lastFailTime`). -/
def new (config : Config) : CB :=
  { config := config, state := .closed, failures := 0, requests := 0,
    lastFailTime := 0 }

/-- `allowRequest` evaluated at time `now`: returns the admission decision
together with the (possibly transitioned) breaker. -/
def allowRequest (cb : CB) (now : Int) : Bool × CB :=
  match cb.state with
  | .closed => (true, cb)
  | .opened =>
    if now - cb.lastFailTime > cb.config.resetTimeout then
      (true, { cb with state := .halfOpen, requests := 0 })
    else
      (false, cb)
  | .halfOpen => (decide (cb.requests < cb.config.maxRequests), cb)

/-- `recordSuccess`. -/
def recordSuccess (cb : CB) : CB :=
  match cb.state with
  | .halfOpen =>
    let cb := { cb with requests := cb.requests + 1 }
    if cb.requests ≥ cb.config.maxRequests then
      { cb with state := .closed, failures := 0, requests := 0 }
    else
      cb
  | .closed => { cb with failures := 0 }
  | .opened => cb

/-- `recordFailure` at time `now` (`time.Now()` inside the Go function). -/
def recordFailure (cb : CB) (now : Int) : CB :=
  let cb := { cb with failures := cb.failures + 1, lastFailTime := now }
  match cb.state with
  | .closed =>
    if cb.failures ≥ cb.config.maxFailures then
      { cb with state := .opened }
    else
      cb
  | .halfOpen => { cb with state := .opened }
  | .opened => cb

/-- Observable outcome of the race in `Execute` between the wrapped
function and the timeout context: the function completed with `nil`,
completed with an error, or the deadline fired first. -/
inductive OpOutcome where
  | success
  | failure (e : String)
  | timeout
deriving DecidableEq, Repr

/-- Result of `Execute`: `nil`, `ErrCircuitBreakerOpen`,
`ErrCircuitBreakerTimeout`, or the operation's own error returned
unchanged. -/
inductive ExecResult where
  | ok
  | circuitOpen
  | circuitTimeout
  | opError (e : String)
deriving DecidableEq, Repr

/-- `Execute`: admission check at time `tAdmit`; if rejected, returns
`ErrCircuitBreakerOpen` without touching the operation; otherwise
dispatches on the operation's outcome, recording failure at time
`tRecord` (the later `time.Now()` inside `recordFailure`). -/
def Execute (cb : CB) (tAdmit tRecord : Int) (op : OpOutcome) :
    ExecResult × CB :=
  let (admitted, cb1) := allowRequest cb tAdmit
  if admitted then
    match op with
    | .success => (.ok, recordSuccess cb1)
    | .failure e => (.opError e, recordFailure cb1 tRecord)
    | .timeout => (.circuitTimeout, recordFailure cb1 tRecord)
  else
    (.circuitOpen, cb1)

/-- Iterated `Execute` with a failing operation, all calls at time `t`. -/
def execFails (cb : CB) (t : Int) : Nat → CB
  | 0 => cb
  | n + 1 => (Execute (execFails cb t n) t t (.failure "boom")).2

/-- Iterated `Execute` with a succeeding operation, all calls at time `t`. -/
def execSuccs (cb : CB) (t : Int) : Nat → CB
  | 0 => cb
  | n + 1 => (Execute (execSuccs cb t n) t t .success).2

lemma allowRequest_failures (cb : CB) (t : Int) :
    (allowRequest cb t).2.failures = cb.failures := by
  unfold allowRequest
  cases cb.state <;> simp <;> split <;> rfl

lemma allowRequest_config (cb : CB) (t : Int) :
    (allowRequest cb t).2.config = cb.config := by
  unfold allowRequest
  cases cb.state <;> simp <;> split <;> rfl

lemma recordFailure_failures (cb : CB) (t : Int) :
    (recordFailure cb t).failures = cb.failures + 1 := by
  unfold recordFailure
  cases cb.state <;> simp <;> split <;> rfl

lemma recordFailure_lastFailTime (cb : CB) (t : Int) :
    (recordFailure cb t).lastFailTime = t := by
  unfold recordFailure
  cases cb.state <;> simp <;> split <;> rfl

lemma recordFailure_opened (cb : CB) (t : Int) (hs : cb.state = .opened) :
    recordFailure cb t =
      { cb with failures := cb.failures + 1, lastFailTime := t } := by
  unfold recordFailure
  rw [hs]

lemma Execute_eq (cb : CB) (tA tR : Int) (op : OpOutcome) :
    Execute cb tA tR op =
      (if (allowRequest cb tA).1 then
        (match op with
         | .success => (ExecResult.ok, recordSuccess (allowRequest cb tA).2)
         | .failure e =>
             (ExecResult.opError e, recordFailure (allowRequest cb tA).2 tR)
         | .timeout =>
             (ExecResult.circuitTimeout,
              recordFailure (allowRequest cb tA).2 tR))
       else (ExecResult.circuitOpen, (allowRequest cb tA).2)) := rfl

lemma execute_open_rejected (cb : CB) (now : Int) (hs : cb.state = .opened)
    (h : ¬ now - cb.lastFailTime > cb.config.resetTimeout) (tR : Int)
    (op : OpOutcome) :
    Execute cb now tR op = (.circuitOpen, cb) := by
  unfold Execute allowRequest
  rw [hs, if_neg h]
  rfl

lemma allowRequest_closed (cb : CB) (t : Int) (hs : cb.state = .closed) :
    allowRequest cb t = (true, cb) := by
  unfold allowRequest
  rw [hs]

lemma allowRequest_halfOpen_admit (cb : CB) (t : Int)
    (hs : cb.state = .halfOpen) (hadm : cb.requests < cb.config.maxRequests) :
    allowRequest cb t = (true, cb) := by
  unfold allowRequest
  rw [hs]
  simp [hadm]

lemma recordFailure_closed_lt (cb : CB) (t : Int) (hs : cb.state = .closed)
    (hlt : cb.failures + 1 < cb.config.maxFailures) :
    recordFailure cb t =
      { cb with failures := cb.failures + 1, lastFailTime := t } := by
  unfold recordFailure
  simp only [hs]
  rw [if_neg (by omega : ¬ cb.failures + 1 ≥ cb.config.maxFailures)]

lemma recordFailure_closed_ge (cb : CB) (t : Int) (hs : cb.state = .closed)
    (hge : cb.config.maxFailures ≤ cb.failures + 1) :
    recordFailure cb t =
      { cb with
        state := .opened, failures := cb.failures + 1,
        lastFailTime := t } := by
  unfold recordFailure
  simp only [hs]
  rw [if_pos (by omega : cb.failures + 1 ≥ cb.config.maxFailures)]

lemma recordSuccess_halfOpen_lt (cb : CB) (hs : cb.state = .halfOpen)
    (hlt : cb.requests + 1 < cb.config.maxRequests) :
    recordSuccess cb = { cb with requests := cb.requests + 1 } := by
  unfold recordSuccess
  simp only [hs]
  rw [if_neg (by omega : ¬ cb.requests + 1 ≥ cb.config.maxRequests)]

lemma recordSuccess_halfOpen_ge (cb : CB) (hs : cb.state = .halfOpen)
    (hge : cb.config.maxRequests ≤ cb.requests + 1) :
    recordSuccess cb =
      { cb with state := .closed, failures := 0, requests := 0 } := by
  unfold recordSuccess
  simp only [hs]
  rw [if_pos (by omega : cb.requests + 1 ≥ cb.config.maxRequests)]

lemma exec_fail_closed_step (cb : CB) (tA tR : Int) (e : String)
    (hs : cb.state = .closed)
    (hlt : cb.failures + 1 < cb.config.maxFailures) :
    (Execute cb tA tR (.failure e)).2 =
      { cb with failures := cb.failures + 1, lastFailTime := tR } := by
  rw [Execute_eq, allowRequest_closed cb tA hs]
  simp [recordFailure_closed_lt cb tR hs hlt]

lemma exec_fail_closed_open (cb : CB) (tA tR : Int) (e : String)
    (hs : cb.state = .closed)
    (hge : cb.config.maxFailures ≤ cb.failures + 1) :
    (Execute cb tA tR (.failure e)).2 =
      { cb with
        state := .opened, failures := cb.failures + 1,
        lastFailTime := tR } := by
  rw [Execute_eq, allowRequest_closed cb tA hs]
  simp [recordFailure_closed_ge cb tR hs hge]

lemma execFails_succ (cb : CB) (t : Int) (n : Nat) :
    execFails cb t (n + 1) =
      (Execute (execFails cb t n) t t (.failure "boom")).2 := rfl

lemma execFails_closed_inv (cfg : Config) (t : Int) :
    ∀ k, k < cfg.maxFailures →
      (execFails (new cfg) t k).state = .closed ∧
      (execFails (new cfg) t k).failures = k ∧
      (execFails (new cfg) t k).config = cfg := by
  intro k
  induction k with
  | zero => exact fun _ => ⟨rfl, rfl, rfl⟩
  | succ n ih =>
    intro h
    obtain ⟨hs, hf, hc⟩ := ih (Nat.lt_of_succ_lt h)
    have hstep := exec_fail_closed_step (execFails (new cfg) t n) t t
      "boom" hs (by rw [hf, hc]; omega)
    rw [execFails_succ, hstep]
    exact ⟨hs, by simp [hf], hc⟩

lemma execFails_opens (cfg : Config) (t : Int) (hN : 1 ≤ cfg.maxFailures) :
    (execFails (new cfg) t cfg.maxFailures).state = .opened ∧
    (execFails (new cfg) t cfg.maxFailures).failures = cfg.maxFailures ∧
    (execFails (new cfg) t cfg.maxFailures).lastFailTime = t ∧
    (execFails (new cfg) t cfg.maxFailures).config = cfg := by
  obtain ⟨m, hm⟩ : ∃ m, cfg.maxFailures = m + 1 :=
    ⟨cfg.maxFailures - 1, by omega⟩
  obtain ⟨hs, hf, hc⟩ := execFails_closed_inv cfg t m (by omega)
  have hstep := exec_fail_closed_open (execFails (new cfg) t m) t t
    "boom" hs (by rw [hf, hc]; omega)
  rw [hm, execFails_succ, hstep]
  exact ⟨rfl, by simp [hf, hm], rfl, hc⟩

lemma exec_succ_halfopen_step (cb : CB) (tA tR : Int)
    (hs : cb.state = .halfOpen)
    (hlt : cb.requests + 1 < cb.config.maxRequests) :
    (Execute cb tA tR .success).2 = { cb with requests := cb.requests + 1 } := by
  rw [Execute_eq, allowRequest_halfOpen_admit cb tA hs (by omega)]
  simp [recordSuccess_halfOpen_lt cb hs hlt]

lemma exec_succ_halfopen_close (cb : CB) (tA tR : Int)
    (hs : cb.state = .halfOpen)
    (hadm : cb.requests < cb.config.maxRequests)
    (hge : cb.config.maxRequests ≤ cb.requests + 1) :
    (Execute cb tA tR .success).2 =
      { cb with state := .closed, failures := 0, requests := 0 } := by
  rw [Execute_eq, allowRequest_halfOpen_admit cb tA hs hadm]
  simp [recordSuccess_halfOpen_ge cb hs hge]

lemma execSuccs_succ (cb : CB) (t : Int) (n : Nat) :
    execSuccs cb t (n + 1) =
      (Execute (execSuccs cb t n) t t .success).2 := rfl

lemma execSuccs_halfopen_inv (cb : CB) (t : Int) (hs : cb.state = .halfOpen)
    (hr : cb.requests = 0) :
    ∀ k, k < cb.config.maxRequests →
      (execSuccs cb t k).state = .halfOpen ∧
      (execSuccs cb t k).requests = k ∧
      (execSuccs cb t k).config = cb.config ∧
      (execSuccs cb t k).failures = cb.failures := by
  intro k
  induction k with
  | zero => exact fun _ => ⟨hs, hr, rfl, rfl⟩
  | succ n ih =>
    intro h
    obtain ⟨hks, hkr, hkc, hkf⟩ := ih (Nat.lt_of_succ_lt h)
    have hstep := exec_succ_halfopen_step (execSuccs cb t n) t t hks
      (by rw [hkr, hkc]; omega)
    rw [execSuccs_succ, hstep]
    exact ⟨hks, by simp [hkr], hkc, hkf⟩

/-- Concrete configuration used by the witness breakers:
maxFailures 2, resetTimeout 30, failureTimeout 10, maxRequests 2. -/
def cfgW : Config :=
  { maxFailures := 2, resetTimeout := 30, failureTimeout := 10,
    maxRequests := 2 }

/-- Concrete breaker in the Open state, last failure at time 100. -/
def cbOpenW : CB :=
  { config := cfgW, state := .opened, failures := 2, requests := 0,
    lastFailTime := 100 }

/-- Concrete breaker in the HalfOpen state with one recorded probe. -/
def cbHalfW : CB :=
  { config := cfgW, state := .halfOpen, failures := 2, requests := 1,
    lastFailTime := 100 }

/-- C1: from a fresh breaker with `maxFailures = N` (N at least 1) and a
nonnegative reset timeout, the state stays Closed through the first N - 1
failing `Execute` calls, is Open after the N-th, and the (N+1)-th
immediate call (same timestamp) returns CircuitOpen with the breaker
unchanged, uniformly in the supplied operation — so the operation is
never consulted. -/
theorem breaker_opens_after_threshold (cfg : Config) (t : Int)
    (hN : 1 ≤ cfg.maxFailures) (hR : 0 ≤ cfg.resetTimeout) :
    (∀ k, k < cfg.maxFailures → (execFails (new cfg) t k).state = .closed) ∧
    (execFails (new cfg) t cfg.maxFailures).state = .opened ∧
    (∀ tR op, Execute (execFails (new cfg) t cfg.maxFailures) t tR op =
      (.circuitOpen, execFails (new cfg) t cfg.maxFailures)) := by
  obtain ⟨ho, hf, hl, hc⟩ := execFails_opens cfg t hN
  refine ⟨fun k hk => (execFails_closed_inv cfg t k hk).1, ho, fun tR op => ?_⟩
  exact execute_open_rejected _ t ho (by rw [hl, hc]; omega) tR op

/-- Witness for C1: with the concrete configuration `cfgW`
(maxFailures 2), two failing calls at time 100 open the breaker and the
next immediate call is rejected with CircuitOpen. -/
theorem breaker_opens_after_threshold_witness :
    (execFails (new cfgW) 100 cfgW.maxFailures).state = .opened ∧
    Execute (execFails (new cfgW) 100 cfgW.maxFailures) 100 100 .success =
      (.circuitOpen, execFails (new cfgW) 100 cfgW.maxFailures) := by
  have h := breaker_opens_after_threshold cfgW 100 (by decide) (by decide)
  exact ⟨h.2.1, h.2.2 100 .success⟩

/-- C3: from state HalfOpen with probe counter 0 and
`maxHalfOpenProbes = M` (M at least 1), each of the first M - 1
successful probe calls leaves the state HalfOpen and increments the
probe counter, and the M-th closes the breaker with `failures` and
`requests` reset to 0. -/
theorem halfopen_recovery_closes (cb : CB) (t : Int)
    (hs : cb.state = .halfOpen) (hr : cb.requests = 0)
    (hM : 1 ≤ cb.config.maxRequests) :
    (∀ k, k < cb.config.maxRequests →
      (execSuccs cb t k).state = .halfOpen ∧
      (execSuccs cb t k).requests = k) ∧
    (execSuccs cb t cb.config.maxRequests).state = .closed ∧
    (execSuccs cb t cb.config.maxRequests).failures = 0 ∧
    (execSuccs cb t cb.config.maxRequests).requests = 0 := by
  obtain ⟨m, hm⟩ : ∃ m, cb.config.maxRequests = m + 1 :=
    ⟨cb.config.maxRequests - 1, by omega⟩
  obtain ⟨hks, hkr, hkc, hkf⟩ :=
    execSuccs_halfopen_inv cb t hs hr m (by omega)
  have hstep := exec_succ_halfopen_close (execSuccs cb t m) t t hks
    (by rw [hkr, hkc]; omega) (by rw [hkr, hkc]; omega)
  refine ⟨fun k hk => ⟨(execSuccs_halfopen_inv cb t hs hr k hk).1,
    (execSuccs_halfopen_inv cb t hs hr k hk).2.1⟩, ?_⟩
  rw [hm, execSuccs_succ, hstep]
  exact ⟨rfl, rfl, rfl⟩

/-- Concrete breaker in the HalfOpen state with probe counter 0, used to
witness C3. -/
def cbHalf0W : CB :=
  { config := cfgW, state := .halfOpen, failures := 2, requests := 0,
    lastFailTime := 100 }

/-- Witness for C3: with the concrete HalfOpen breaker `cbHalf0W`
(maxRequests 2, probe counter 0), two successful probes close the
breaker and reset the failure count. -/
theorem halfopen_recovery_closes_witness :
    (execSuccs cbHalf0W 120 cbHalf0W.config.maxRequests).state = .closed ∧
    (execSuccs cbHalf0W 120 cbHalf0W.config.maxRequests).failures = 0 := by
  have h := halfopen_recovery_closes cbHalf0W 120 rfl rfl (by decide)
  exact ⟨h.2.1, h.2.2.1⟩

/-- C5: for an admitted call, a timed-out operation yields
CircuitTimeout and an erroring operation yields its own error unchanged
(no error is suppressed); both outcomes update the breaker identically,
incrementing `failures` and setting `lastFailTime` to the recording
time. -/
theorem admitted_timeout_counts_as_failure (cb : CB) (tA tR : Int)
    (e : String) (hadm : (allowRequest cb tA).1 = true) :
    (Execute cb tA tR .timeout).1 = .circuitTimeout ∧
    (Execute cb tA tR (.failure e)).1 = .opError e ∧
    (Execute cb tA tR .timeout).2 = (Execute cb tA tR (.failure e)).2 ∧
    (Execute cb tA tR .timeout).2.failures = cb.failures + 1 ∧
    (Execute cb tA tR .timeout).2.lastFailTime = tR := by
  rw [Execute_eq, Execute_eq, hadm]
  refine ⟨rfl, rfl, rfl, ?_, ?_⟩
  · show (recordFailure (allowRequest cb tA).2 tR).failures = cb.failures + 1
    rw [recordFailure_failures, allowRequest_failures]
  · show (recordFailure (allowRequest cb tA).2 tR).lastFailTime = tR
    exact recordFailure_lastFailTime _ tR

/-- Witness for C5: from a fresh breaker (Closed, so the call is
admitted), a timeout returns CircuitTimeout, an operation error is
passed through, and both produce the same breaker afterwards. -/
theorem admitted_timeout_counts_as_failure_witness :
    (Execute (new cfgW) 0 5 .timeout).1 = .circuitTimeout ∧
    (Execute (new cfgW) 0 5 (.failure "db down")).1 = .opError "db down" ∧
    (Execute (new cfgW) 0 5 .timeout).2 =
      (Execute (new cfgW) 0 5 (.failure "db down")).2 := by
  have h := admitted_timeout_counts_as_failure (new cfgW) 0 5 "db down" rfl
  exact ⟨h.1, h.2.1, h.2.2.1⟩

/-- C2: in state Open, a call at time `now` is admitted iff
`now - lastFailureTime > resetTimeout`; on admission the state becomes
HalfOpen with the probe counter reset to 0; before the deadline the call
is rejected with CircuitOpen and the breaker is left unchanged. -/
theorem open_admission_iff_cooldown (cb : CB) (now : Int)
    (hs : cb.state = .opened) :
    ((allowRequest cb now).1 = true ↔
      now - cb.lastFailTime > cb.config.resetTimeout) ∧
    (now - cb.lastFailTime > cb.config.resetTimeout →
      (allowRequest cb now).2.state = .halfOpen ∧
      (allowRequest cb now).2.requests = 0) ∧
    (¬ now - cb.lastFailTime > cb.config.resetTimeout →
      ∀ tR op, Execute cb now tR op = (.circuitOpen, cb)) := by
  refine ⟨?_, ?_, ?_⟩
  · unfold allowRequest
    rw [hs]
    split_ifs with h <;> simp [h]
  · intro h
    unfold allowRequest
    rw [hs, if_pos h]
    exact ⟨rfl, rfl⟩
  · intro h tR op
    unfold Execute allowRequest
    rw [hs, if_neg h]
    rfl

/-- Witness for C2: with the concrete Open breaker `cbOpenW`
(lastFailTime 100, resetTimeout 30), a call at time 200 transitions to
HalfOpen, and a call at time 105 is rejected with CircuitOpen leaving
the breaker unchanged. -/
theorem open_admission_iff_cooldown_witness :
    (allowRequest cbOpenW 200).2.state = .halfOpen ∧
    Execute cbOpenW 105 105 .success = (.circuitOpen, cbOpenW) := by
  have h1 := open_admission_iff_cooldown cbOpenW 105 rfl
  have h2 := open_admission_iff_cooldown cbOpenW 200 rfl
  exact ⟨(h2.2.1 (by decide)).1, h1.2.2 (by decide) 105 .success⟩

/-- C4: any failure recorded in state HalfOpen transitions the breaker
to Open, regardless of the probe count. -/
theorem halfopen_failure_reopens (cb : CB) (t : Int)
    (hs : cb.state = .halfOpen) :
    (recordFailure cb t).state = .opened := by
  unfold recordFailure
  rw [hs]

/-- Witness for C4: the concrete HalfOpen breaker `cbHalfW` (with a
nonzero probe count) transitions to Open on a failure at time 120. -/
theorem halfopen_failure_reopens_witness :
    (recordFailure cbHalfW 120).state = .opened :=
  halfopen_failure_reopens cbHalfW 120 rfl

/-- C9: recording a failure at time `t` sets `lastFailTime` to `t` and
increments `failures` in every breaker state; when the breaker is
already Open it stays Open, and a later admission check at time `u`
succeeds iff `u - t > resetTimeout`, so the failure pushes back the
Open-to-HalfOpen deadline. -/
theorem failure_updates_clock_every_state (cb : CB) (t u : Int) :
    (recordFailure cb t).lastFailTime = t ∧
    (recordFailure cb t).failures = cb.failures + 1 ∧
    (cb.state = .opened →
      (recordFailure cb t).state = .opened ∧
      ((allowRequest (recordFailure cb t) u).1 = true ↔
        u - t > cb.config.resetTimeout)) := by
  refine ⟨recordFailure_lastFailTime cb t, recordFailure_failures cb t, ?_⟩
  intro hs
  rw [recordFailure_opened cb t hs]
  refine ⟨hs, ?_⟩
  unfold allowRequest
  simp only [hs]
  split_ifs with h <;> simp [h]

/-- Witness for C9: the concrete Open breaker `cbOpenW` after a failure
at time 40 has lastFailTime 40, failures 3, and a call at time 90 is
admitted iff 90 - 40 > 30. -/
theorem failure_updates_clock_every_state_witness :
    (recordFailure cbOpenW 40).lastFailTime = 40 ∧
    (recordFailure cbOpenW 40).failures = cbOpenW.failures + 1 ∧
    ((allowRequest (recordFailure cbOpenW 40) 90).1 = true ↔
      (90 : Int) - 40 > cbOpenW.config.resetTimeout) := by
  have h := failure_updates_clock_every_state cbOpenW 40 90
  exact ⟨h.1, h.2.1, (h.2.2 rfl).2⟩

/-- C10: a success recorded in state Open changes nothing: the whole
breaker record (state, failures, requests, lastFailTime, config) is
returned unchanged. -/
theorem open_success_noop (cb : CB) (hs : cb.state = .opened) :
    recordSuccess cb = cb := by
  unfold recordSuccess
  rw [hs]

/-- Witness for C10: the concrete Open breaker `cbOpenW` is unchanged by
a recorded success. -/
theorem open_success_noop_witness : recordSuccess cbOpenW = cbOpenW :=
  open_success_noop cbOpenW rfl

end CircuitBreaker

namespace RateLimiter

/-- Modelled from the spec: the per-key token bucket is
`golang.org/x/time/rate.Limiter`, an external library whose source is
not part of this repository. Following spec section 4.2, a bucket holds
a rational token count capped at `burst`, refilled continuously at
`rate` tokens per second. -/
structure Limiter where
  rate : ℚ
  burst : ℕ
  tokens : ℚ
deriving DecidableEq, Repr

/-- Modelled from the spec: `rate.NewLimiter(r, b)` starts with a full
bucket, so `burst` calls are allowed instantaneously on a fresh key. -/
def NewLimiter (r : ℚ) (b : ℕ) : Limiter :=
  { rate := r, burst := b, tokens := (b : ℚ) }

/-- Modelled from the spec: `Allow` after `elapsed` seconds refills
`tokens = min(burst, tokens + elapsed * rate)` and consumes one token
iff at least one is available, returning whether the call is admitted
together with the updated bucket. -/
def allow (l : Limiter) (elapsed : ℚ) : Bool × Limiter :=
  let t := min (l.burst : ℚ) (l.tokens + elapsed * l.rate)
  if 1 ≤ t then (true, { l with tokens := t - 1 })
  else (false, { l with tokens := t })

/-- Iterated immediate calls to `allow` (zero elapsed time), returning
the list of admission decisions in call order and the final bucket. -/
def allowRepeat (l : Limiter) : ℕ → List Bool × Limiter
  | 0 => ([], l)
  | n + 1 =>
    let p := allow l 0
    let q := allowRepeat p.2 n
    (p.1 :: q.1, q.2)

/-- Sequential behaviour of `RateLimitStore` (src/middleware/middleware.go):
the limiter map as an association list plus the configured rate and
burst. -/
structure RateLimitStore where
  limiters : List (String × Limiter)
  rate : ℚ
  burst : ℕ
deriving DecidableEq, Repr

/-- `NewRateLimitStore`: empty map with the configured rate and burst. -/
def NewRateLimitStore (r : ℚ) (b : ℕ) : RateLimitStore :=
  { limiters := [], rate := r, burst := b }

/-- `GetLimiter` as executed by a single caller: look the key up; on a
miss, create `rate.NewLimiter(s.rate, s.burst)` and insert it. -/
def GetLimiter (s : RateLimitStore) (key : String) :
    Limiter × RateLimitStore :=
  match s.limiters.lookup key with
  | some l => (l, s)
  | none =>
    let l := NewLimiter s.rate s.burst
    (l, { s with limiters := (key, l) :: s.limiters })

lemma allow_drained (l : Limiter) (h : l.tokens = 0) :
    (allow l 0).1 = false := by
  unfold allow
  rw [h]
  have ht : min ((l.burst : ℕ) : ℚ) ((0 : ℚ) + 0 * l.rate) = 0 := by
    rw [zero_mul, add_zero]
    exact min_eq_right (by positivity)
  rw [ht]
  norm_num

lemma allow_step (l : Limiter) (k : ℕ) (h : l.tokens = (k : ℚ) + 1)
    (hb : k + 1 ≤ l.burst) :
    allow l 0 = (true, { l with tokens := (k : ℚ) }) := by
  unfold allow
  have ht : min ((l.burst : ℕ) : ℚ) (l.tokens + 0 * l.rate) = (k : ℚ) + 1 := by
    rw [h, zero_mul, add_zero]
    refine min_eq_right ?_
    have : ((k + 1 : ℕ) : ℚ) ≤ ((l.burst : ℕ) : ℚ) := by
      exact_mod_cast hb
    push_cast at this
    linarith
  rw [ht, if_pos (by linarith : (1 : ℚ) ≤ (k : ℚ) + 1)]
  have : (k : ℚ) + 1 - 1 = (k : ℚ) := by ring
  rw [this]

lemma allowRepeat_drain :
    ∀ (n : ℕ) (l : Limiter), l.tokens = (n : ℚ) → n ≤ l.burst →
      (allowRepeat l n).1 = List.replicate n true ∧
      (allowRepeat l n).2.tokens = 0 ∧
      (allowRepeat l n).2.burst = l.burst := by
  intro n
  induction n with
  | zero =>
    intro l h1 _
    refine ⟨rfl, ?_, rfl⟩
    simpa using h1
  | succ k ih =>
    intro l h1 h2
    have hstep := allow_step l k (by push_cast at h1 ⊢; linarith) h2
    have hrec := ih { l with tokens := (k : ℚ) } rfl
      (by show k ≤ l.burst; omega)
    show ((allow l 0).1 :: (allowRepeat (allow l 0).2 k).1 =
        List.replicate (k + 1) true) ∧
      (allowRepeat (allow l 0).2 k).2.tokens = 0 ∧
      (allowRepeat (allow l 0).2 k).2.burst = l.burst
    rw [hstep]
    exact ⟨by rw [hrec.1]; rfl, hrec.2.1, hrec.2.2⟩

lemma allowRepeat_snoc (l : Limiter) (n : ℕ) :
    allowRepeat l (n + 1) =
      ((allowRepeat l n).1 ++ [(allow (allowRepeat l n).2 0).1],
       (allow (allowRepeat l n).2 0).2) := by
  induction n generalizing l with
  | zero => rfl
  | succ m ih =>
    show ((allow l 0).1 :: (allowRepeat (allow l 0).2 (m + 1)).1, _) = _
    rw [ih (allow l 0).2]
    rfl

/-- C6: for a key the store has never seen, `GetLimiter` hands out a
fresh full bucket with the configured burst B; its first B immediate
calls return true and the (B+1)-th immediate call returns false. -/
theorem limiter_burst_accounting (s : RateLimitStore) (key : String)
    (hfresh : s.limiters.lookup key = none) :
    (GetLimiter s key).1 = NewLimiter s.rate s.burst ∧
    (allowRepeat (GetLimiter s key).1 (s.burst + 1)).1 =
      List.replicate s.burst true ++ [false] := by
  have hget : (GetLimiter s key).1 = NewLimiter s.rate s.burst := by
    unfold GetLimiter
    rw [hfresh]
  refine ⟨hget, ?_⟩
  rw [hget, allowRepeat_snoc]
  obtain ⟨h1, h2, h3⟩ :=
    allowRepeat_drain s.burst (NewLimiter s.rate s.burst) rfl (le_refl _)
  rw [h1, allow_drained _ h2]

/-- Witness for C6: a store with burst 3 and a never-seen key admits
exactly the first three immediate calls. -/
theorem limiter_burst_accounting_witness :
    (allowRepeat (GetLimiter (NewRateLimitStore (5 / 3) 3) "10.0.0.1").1
        4).1 = List.replicate 3 true ++ [false] := by
  have h :=
    limiter_burst_accounting (NewRateLimitStore (5 / 3) 3) "10.0.0.1" rfl
  exact h.2

/-- Progress of one caller through `GetLimiter`: before the read-locked
lookup, after a lookup miss (about to create and insert under the write
lock), or finished holding limiter `ret`. -/
inductive Phase where
  | start
  | missed
  | done (ret : Nat)
deriving DecidableEq, Repr

/-- Shared and per-thread state of two callers of `GetLimiter` for one
key: the map (limiters named by creation index), the next fresh index,
how many limiters have been created, and each caller's phase. -/
structure RaceState where
  table : List (String × Nat)
  nextId : Nat
  created : Nat
  t1 : Phase
  t2 : Phase
deriving DecidableEq, Repr

/-- One atomic critical section of `GetLimiter` executed by thread
`t` (`true` for the first caller): the read-locked lookup, or — after a
miss — the write-locked create-and-insert, which the Go code performs
without re-checking the map. -/
def threadStep (key : String) (s : RaceState) (t : Bool) : RaceState :=
  match (if t then s.t1 else s.t2) with
  | .start =>
    let p : Phase :=
      match s.table.lookup key with
      | some l => .done l
      | none => .missed
    if t then { s with t1 := p } else { s with t2 := p }
  | .missed =>
    let l := s.nextId
    let s2 :=
      { s with
        table := (key, l) :: s.table, nextId := s.nextId + 1,
        created := s.created + 1 }
    if t then { s2 with t1 := .done l } else { s2 with t2 := .done l }
  | .done _ => s

/-- Run an interleaving: at each step the named thread executes its next
atomic section. -/
def raceRun (key : String) (s : RaceState) : List Bool → RaceState
  | [] => s
  | t :: ts => raceRun key (threadStep key s t) ts

/-- Both callers yet to begin on an empty store. -/
def raceInit : RaceState :=
  { table := [], nextId := 0, created := 0, t1 := .start, t2 := .start }

/-- C7: counterexample. Under the interleaving where both callers pass
the read-locked lookup before either inserts, `GetLimiter` creates two
limiters for the single key: the first caller ends up holding limiter 0
while the map retains only limiter 1, so tokens consumed through the
first caller's limiter are invisible to every later lookup. This
contradicts exactly-once creation. -/
theorem getLimiter_race_double_creation :
    (raceRun "k" raceInit [true, false, true, false]).created = 2 ∧
    (raceRun "k" raceInit [true, false, true, false]).t1 = .done 0 ∧
    (raceRun "k" raceInit [true, false, true, false]).t2 = .done 1 ∧
    (raceRun "k" raceInit [true, false, true, false]).table.lookup "k" =
      some 1 := by
  refine ⟨rfl, rfl, rfl, rfl⟩

/-- `time.Duration.Minutes()`: a nanosecond count divided by the
nanoseconds in a minute (the Go code computes this over float64;
rationals are used here, which is exact at the inputs considered). -/
def durationMinutes (d : ℤ) : ℚ := (d : ℚ) / 60000000000

/-- `time.Duration.Seconds()`: a nanosecond count divided by the
nanoseconds in a second. -/
def durationSeconds (d : ℤ) : ℚ := (d : ℚ) / 1000000000

/-- The rate the `RateLimit` middleware hands to `NewRateLimitStore`:
`rate.Limit(float64(cfg.RateLimit) / cfg.RateLimitWindow.Minutes())`. -/
def middlewareLimitRate (rateLimit window : ℤ) : ℚ :=
  (rateLimit : ℚ) / durationMinutes window

/-- Modelled from the spec: the requests-per-second quantity the claim
describes, `cfg.RateLimit` divided by the window length in seconds. -/
def ratePerSecondSpec (rateLimit window : ℤ) : ℚ :=
  (rateLimit : ℚ) / durationSeconds window

/-- C8: counterexample. At the default configuration (RateLimit 100,
window one minute) the middleware computes a rate of 100 tokens per
second where the claim requires 100/60; the two disagree, and on a
drained bucket of burst 20 a wait of 3/5 s (one claimed refill period)
lets a second immediate call through as well, instead of exactly one. -/
theorem middleware_rate_not_per_second :
    middlewareLimitRate 100 60000000000 = 100 ∧
    ratePerSecondSpec 100 60000000000 = 5 / 3 ∧
    middlewareLimitRate 100 60000000000 ≠
      ratePerSecondSpec 100 60000000000 ∧
    (allow
      (allow
        { rate := middlewareLimitRate 100 60000000000, burst := 20,
          tokens := 0 } (3 / 5)).2 0).1 = true := by
  refine ⟨by norm_num [middlewareLimitRate, durationMinutes],
    by norm_num [ratePerSecondSpec, durationSeconds],
    by norm_num [middlewareLimitRate, ratePerSecondSpec,
      durationMinutes, durationSeconds], ?_⟩
  norm_num [allow, middlewareLimitRate, durationMinutes]

end RateLimiter

